import Mathlib

/-!
Verification of the store-analytics accumulation-and-persistence engine.

This file is a shallow embedding of the Python sources:

* `app/core/heatmap.py`  — `HeatmapProcessor` (activity surface, update rule,
  overlay rendering, statistics, autosave check);
* `app/services/storage.py` — `StorageService` (day-bucketed snapshot store,
  retention/cleanup, load-latest);
* `app/core/camera.py` — the per-frame driver `Camera.get_frame`;
* `app/config/settings.py` — the configuration constants.

Conventions of the embedding:

* `numpy` float32 grids are modelled as integer-valued grids: every value
  the program ever stores in a grid is a sum of zeros and ones (and every
  image pixel a `uint8`), for which float32 arithmetic is exact.
* `cv2.circle(img, c, r, 1, -1)` (an external library call) is modelled as
  setting every pixel of the closed Euclidean disc of radius `r` around `c`
  to `1`, clipped to the image (out-of-range pixels simply do not exist).
  Note that drawing *sets* covered pixels; it does not add to them.
* numpy element-wise addition including its broadcasting rules is modelled by
  `npAdd2`; a shape combination numpy rejects is the `none` result
  (a raised `ValueError`).
* The file system is modelled as a list of day directories, each containing a
  list of named files; an `.npz` payload is the pair (grid, start-time string).
  `np.savez_compressed`/`np.load` round-trip arrays losslessly and
  `isoformat`/`fromisoformat` round-trip timestamps exactly, so a payload is
  stored as an exact value; an unreadable/corrupt payload is `none`.
* Python string operations are modelled over `List Char` (`split`,
  `replace`, `startswith`, substring test, lexicographic comparison).
-/

/-! ### Character-list string utilities (Python `str` operations) -/

/-- Python `s.startswith(p)` on character lists: `isPre p l` holds iff `p`
is an initial segment of `l`. -/
def isPre : List Char → List Char → Bool
  | [], _ => true
  | _ :: _, [] => false
  | a :: as, b :: bs => a == b && isPre as bs

/-- Python `p in s` (substring containment) on character lists. -/
def hasSub : List Char → List Char → Bool
  | [], p => p.isEmpty
  | c :: t, p => isPre p (c :: t) || hasSub t p

/-- Python `s.endswith(p)` on character lists. -/
def isSuf (p l : List Char) : Bool := isPre p.reverse l.reverse

/-- Python `s.startswith(p)` on strings. -/
def strStarts (s p : String) : Bool := isPre p.data s.data

/-- Python `s.endswith(p)` on strings. -/
def strEnds (s p : String) : Bool := isSuf p.data s.data

/-- Python `p in s` (substring containment) on strings. -/
def strHasSub (s p : String) : Bool := hasSub s.data p.data

/-- Python `a < b` on strings: lexicographic comparison of the character
sequences by code point (the order `String.lt` also denotes, written over
the character lists so that it evaluates). -/
def strLtb (a b : String) : Bool := decide (a.data < b.data)

/-- The segment of `l` after its last `'_'` character — this is
`l.split('_')[-1]` of Python, which the cleanup code uses to extract the
(time-of-day part of the) checkpoint token from a payload path. -/
def afterLastUnderscore (l : List Char) : List Char :=
  l.foldl (fun acc c => if c == '_' then [] else acc ++ [c]) []

/-- Fuelled worker for `removePat`; every step consumes one unit of fuel and
at least one character, so fuel `l.length` always suffices. -/
def removePatAux : ℕ → List Char → List Char → List Char
  | 0, l, _ => l
  | _ + 1, [], _ => []
  | n + 1, c :: rest, pat =>
    if isPre pat (c :: rest) then
      removePatAux n (List.drop (pat.length - 1) rest) pat
    else
      c :: removePatAux n rest pat

/-- Python `s.replace(pat, '')`: delete all (left-to-right, non-overlapping)
occurrences of `pat` from `s`. -/
def removePat (l pat : List Char) : List Char := removePatAux l.length l pat

/-- Python `f.isdigit() and len(f) == 8` — the filter the storage service
applies to directory names to recognize day buckets. -/
def isDayName (s : String) : Bool :=
  s.data.length == 8 && s.data.all (fun c => c.isDigit)

/-! ### Configuration (`app/config/settings.py`, `HeatmapConfig`) -/

/-- `HeatmapConfig.SAVE_INTERVAL = 300` (seconds). -/
def SAVE_INTERVAL : ℕ := 300

/-- `HeatmapConfig.GAUSSIAN_RADIUS = 30` (pixels). -/
def GAUSSIAN_RADIUS : ℤ := 30

/-! ### The activity grid (`np.ndarray` of shape `(h, w)`, `float32`) -/

/-- A 2-dimensional numpy array of rationals.  `val y x` is the entry at row
`y`, column `x`; entries outside `h × w` are irrelevant (masked by
`Grid.cell`). -/
structure Grid where
  h : ℕ
  w : ℕ
  val : ℕ → ℕ → ℤ

/-- Entry access with bounds masking: out-of-range reads are `0` (they do not
exist in the numpy array). -/
def Grid.cell (g : Grid) (y x : ℕ) : ℤ :=
  if y < g.h ∧ x < g.w then g.val y x else 0

/-- All in-range entries of the grid, row-major. -/
def Grid.cells (g : Grid) : List ℤ :=
  ((List.range g.h).map (fun y => (List.range g.w).map (fun x => g.val y x))).flatten

/-- `np.sum(g)`. -/
def sumG (g : Grid) : ℤ := g.cells.foldl (· + ·) 0

/-- `np.max(g)` for a non-empty grid (for an empty grid `np.max` raises; the
model returns the junk value `g.val 0 0`, and no claim touches empty grids). -/
def maxCell (g : Grid) : ℤ := g.cells.foldl (fun a b => max a b) (g.val 0 0)

/-- `np.zeros((h, w), dtype=np.float32)`. -/
def zerosGrid (h w : ℕ) : Grid := ⟨h, w, fun _ _ => 0⟩

/-! ### `HeatmapProcessor.update_heatmap` — the grid arithmetic -/

/-- A detection bounding box `(x1, y1, x2, y2)` of integer pixel coordinates. -/
abbrev Box := ℤ × ℤ × ℤ × ℤ

/-- `center_x = (x1 + x2) // 2` (Python floor division). -/
def centerX (b : Box) : ℤ := (b.1 + b.2.2.1).fdiv 2

/-- `center_y = (y1 + y2) // 2` (Python floor division). -/
def centerY (b : Box) : ℤ := (b.2.1 + b.2.2.2).fdiv 2

/-- Membership of pixel `(x, y)` in the closed disc of radius `r` centred at
`(cx, cy)` — the model of the set of pixels `cv2.circle(-, (cx, cy), r, 1, -1)`
fills. -/
def inDisc (cx cy r : ℤ) (x y : ℕ) : Bool :=
  decide (((x : ℤ) - cx) ^ 2 + ((y : ℤ) - cy) ^ 2 ≤ r ^ 2)

/-- `cv2.circle(g, (cx, cy), r, 1, -1)`: set every pixel of the disc to `v`
(the call is used with colour `1`).  Pixels outside the grid are clipped by
`Grid.cell`'s masking. -/
def drawCircle (g : Grid) (cx cy r : ℤ) (v : ℤ) : Grid :=
  ⟨g.h, g.w, fun y x => if inDisc cx cy r x y then v else g.val y x⟩

/-- Does some box's disc (radius `GAUSSIAN_RADIUS`) cover pixel `(x, y)`? -/
def coveredAny (boxes : List Box) (x y : ℕ) : Bool :=
  boxes.any (fun b => inDisc (centerX b) (centerY b) GAUSSIAN_RADIUS x y)

/-- The per-call buffer `new_heat`: a zero grid of the frame's shape into
which one disc per detection box has been drawn (heatmap.py lines 29–36). -/
def mkNewHeat (h w : ℕ) (boxes : List Box) : Grid :=
  boxes.foldl
    (fun g b => drawCircle g (centerX b) (centerY b) GAUSSIAN_RADIUS 1)
    (zerosGrid h w)

/-- One dimension of numpy's broadcasting rule: two sizes are compatible iff
they are equal or one of them is `1`; the result is the larger one.  `none`
models the raised `ValueError`. -/
def broadcastDim (a b : ℕ) : Option ℕ :=
  if a = b then some a
  else if a = 1 then some b
  else if b = 1 then some a
  else none

/-- Index into a possibly-broadcast dimension of original size `n`. -/
def bIdx (n i : ℕ) : ℕ := if n = 1 then 0 else i

/-- numpy element-wise addition of two 2-D arrays, with broadcasting;
`none` models the `ValueError` numpy raises on incompatible shapes. -/
def npAdd2 (a b : Grid) : Option Grid :=
  match broadcastDim a.h b.h, broadcastDim a.w b.w with
  | some rh, some rw =>
      some ⟨rh, rw, fun y x =>
        a.val (bIdx a.h y) (bIdx a.w x) + b.val (bIdx b.h y) (bIdx b.w x)⟩
  | _, _ => none

/-- The grid arithmetic of `HeatmapProcessor.update_heatmap` (heatmap.py
lines 26–38): allocate a zero grid of the frame's shape if unallocated, draw
one unit disc per box into a fresh zero buffer of the frame's shape, and add
the buffer to the grid.  `none` models the `ValueError` raised by
`self.heatmap + new_heat` on incompatible shapes, in which case the
assignment to `self.heatmap` never happens. -/
def update_grid (heatmap : Option Grid) (fh fw : ℕ) (boxes : List Box) :
    Option Grid :=
  npAdd2 (heatmap.getD (zerosGrid fh fw)) (mkNewHeat fh fw boxes)

/-! ### `HeatmapProcessor.apply_heatmap_overlay` — rendering -/

/-- The state of `HeatmapProcessor` relevant to rendering: the accumulated
grid and the cached last composite frame (`last_frame_with_heatmap`). -/
structure HMState where
  heatmap : Option Grid
  lastFrameWithHeatmap : Option Grid

/-- The normalized display grid `(heatmap / max * 255).astype(np.uint8)`
(heatmap.py line 47) — for non-negative values float-divide-then-truncate is
the integer floor division; a derived value that is never written back into
the accumulated grid. -/
def normalizedGrid (g : Grid) : Grid :=
  ⟨g.h, g.w, fun y x => (g.val y x * 255).fdiv (maxCell g)⟩

/-- The composite `cv2.addWeighted(frame, 0.7, colored, 0.3, 0)`
(heatmap.py line 52).  The external colour-map `cv2.applyColorMap` is
modelled as the identity on the normalized single-channel grid and the
weighted blend's rounding as floor division; the claims only concern that
compositing reads the accumulated grid and never writes it. -/
def compositeFrame (frame g : Grid) : Grid :=
  ⟨frame.h, frame.w, fun y x =>
    (7 * frame.val y x + 3 * (normalizedGrid g).val y x).fdiv 10⟩

/-- `HeatmapProcessor.apply_heatmap_overlay` (heatmap.py lines 41–65):
returns the base frame unchanged when the grid is unallocated or its maximum
is zero; otherwise builds the composite, caches it in
`last_frame_with_heatmap` and returns it.  The result is
(new state, returned frame). -/
def apply_heatmap_overlay (st : HMState) (frame : Grid) : HMState × Grid :=
  match st.heatmap with
  | none => (st, frame)
  | some g =>
    if maxCell g = 0 then (st, frame)
    else
      let overlay := compositeFrame frame g
      ({ st with lastFrameWithHeatmap := some overlay }, overlay)

/-! ### `HeatmapProcessor` autosave control flow
(`update_heatmap` / `_auto_save_check` / `save_heatmap`, and
`Camera.get_frame`) -/

/-- The state of `HeatmapProcessor` relevant to the autosave policy. -/
structure HP where
  heatmap : Option Grid
  lastSaveTime : ℕ

/-- `HeatmapProcessor.save_heatmap` (heatmap.py lines 90–98) calls the
storage service iff the grid is allocated and `np.sum(self.heatmap) > 0`. -/
def save_would_call_storage (st : HP) : Bool :=
  match st.heatmap with
  | some g => decide (0 < sumG g)
  | none => false

/-- `HeatmapProcessor._auto_save_check` (heatmap.py lines 112–117).
`storageRaises` abstracts whether `StorageService.save_heatmap_data` raises;
by storage.py lines 157–159 every exception in it is logged and re-raised.
A raised exception propagates *before* the `self.last_save_time =
current_time` assignment, so on a raise the clock keeps its old value.
Result: (state after the call, storage call attempted?, exception raised?).
The `Nat` subtraction `now - lastSaveTime` agrees with the code's real-number
subtraction whenever `now ≥ lastSaveTime` (time is monotone). -/
def auto_save_check (interval now : ℕ) (storageRaises : Bool) (st : HP) :
    HP × Bool × Bool :=
  if interval ≤ now - st.lastSaveTime then
    if save_would_call_storage st then
      if storageRaises then (st, true, true)
      else ({ st with lastSaveTime := now }, true, false)
    else ({ st with lastSaveTime := now }, false, false)
  else (st, false, false)

/-- `HeatmapProcessor.update_heatmap` (heatmap.py lines 24–39) at the level
of the processor state: run the grid arithmetic (a `ValueError` there
propagates before `self.heatmap` is reassigned and before the autosave
check), then run `_auto_save_check`.
Result: (state, autosave check reached?, storage attempt made?, raised?). -/
def update_heatmap (interval now : ℕ) (storageRaises : Bool) (fh fw : ℕ)
    (boxes : List Box) (st : HP) : HP × Bool × Bool × Bool :=
  match update_grid st.heatmap fh fw boxes with
  | none => (st, false, false, true)
  | some g =>
    let st1 : HP := { st with heatmap := some g }
    let r := auto_save_check interval now storageRaises st1
    (r.1, true, r.2.1, r.2.2)

/-- The heatmap-relevant behaviour of `Camera.get_frame` (camera.py lines
24–49): `update_heatmap` is called only when `detections` is non-empty, and
any exception escaping it is caught by the surrounding `try`, leaving the
processor object's state as it was when the exception was raised.
Result: (state, autosave check reached?, storage attempt made?). -/
def get_frame (interval now : ℕ) (storageRaises : Bool) (fh fw : ℕ)
    (detections : List Box) (st : HP) : HP × Bool × Bool :=
  if detections.isEmpty then (st, false, false)
  else
    let r := update_heatmap interval now storageRaises fh fw detections st
    (r.1, r.2.1, r.2.2.1)

/-- Run a sequence of frames `(time, detections)` through `get_frame`,
counting how many storage save attempts were made. -/
def run_frames (interval : ℕ) (storageRaises : Bool) (fh fw : ℕ)
    (frames : List (ℕ × List Box)) (st : HP) : HP × ℕ :=
  frames.foldl
    (fun acc fr =>
      let r := get_frame interval fr.1 storageRaises fh fw fr.2 acc.1
      (r.1, acc.2 + if r.2.2 then 1 else 0))
    (st, 0)

/-! ### `StorageService` — the on-disk snapshot store -/

/-- One file of a day bucket.  `payload` is meaningful only for numeric
payloads (`heatmap_data_*.npz` files): `some (grid, startTime)` if readable,
`none` if the file is of another kind or is corrupt/unreadable (in which
case `np.load`/`fromisoformat` raises). -/
structure FsFile where
  name : String
  payload : Option (Grid × String)

/-- One day-bucket directory. -/
structure DayDir where
  name : String
  files : List FsFile

/-- The snapshot directory tree (`HeatmapConfig.SAVE_DIR`): its immediate
subdirectories.  The model registers only directories (anything in the
listing that is not a directory is already excluded). -/
abbrev Store := List DayDir

/-- Full path of a file, as `os.path.join(save_dir, day, name)` builds it. -/
def pathOf (saveDir day name : String) : String :=
  saveDir ++ "/" ++ day ++ "/" ++ name

/-- `glob("heatmap_data_*.npz")` membership by name. -/
def matchData (n : String) : Bool :=
  strStarts n "heatmap_data_" && strEnds n ".npz"

/-- `glob("heatmap_*.png")` membership by name. -/
def matchImage (n : String) : Bool :=
  strStarts n "heatmap_" && strEnds n ".png"

/-- `glob("heatmap_meta_*.json")` membership by name. -/
def matchMetaFile (n : String) : Bool :=
  strStarts n "heatmap_meta_" && strEnds n ".json"

/-- `glob("overlay_*.jpg")` membership by name. -/
def matchOverlay (n : String) : Bool :=
  strStarts n "overlay_" && strEnds n ".jpg"

/-- Lexicographically greatest element of a list under a string key — the
model of `sort(reverse=True)` followed by taking index `0`, or of
`sorted(...)[-1]` (directory listings have pairwise-distinct names, so the
maximum is unique). -/
def pickMaxBy {α : Type} (name : α → String) (l : List α) : Option α :=
  l.foldl
    (fun acc d =>
      match acc with
      | none => some d
      | some a => if strLtb (name a) (name d) then some d else some a)
    none

/-- `StorageService.cleanup_old_heatmaps`, restricted to one non-current day
bucket (storage.py lines 41–69): gather the four artifact lists, pick the
lexicographically last numeric payload, extract
`latest.split('_')[-1].replace('.npz', '')` from its full path, and delete
every file of the four lists whose full path does not contain that token as
a substring.  Files matched by none of the four globs are never touched. -/
def cleanup_day (saveDir : String) (d : DayDir) : DayDir :=
  match pickMaxBy (fun f => f.name) (d.files.filter (fun f => matchData f.name)) with
  | none => d
  | some latest =>
    let tok : List Char :=
      removePat
        (afterLastUnderscore (pathOf saveDir d.name latest.name).data)
        ".npz".data
    ⟨d.name, d.files.filter (fun f =>
      if matchData f.name || matchImage f.name || matchMetaFile f.name
          || matchOverlay f.name then
        hasSub (pathOf saveDir d.name f.name).data tok
      else true)⟩

/-- `StorageService.cleanup_old_heatmaps` (storage.py lines 26–72): process
every 8-digit day directory except the currently-written one (compared by
path, i.e. by name under a fixed `save_dir`). -/
def cleanup_old_heatmaps (saveDir today : String) (fs : Store) : Store :=
  fs.map (fun d =>
    if isDayName d.name && !(d.name == today) then cleanup_day saveDir d else d)

/-- Write (or overwrite) one file in a directory's listing, as the OS does. -/
def upsertFile (files : List FsFile) (f : FsFile) : List FsFile :=
  if files.any (fun g => g.name == f.name) then
    files.map (fun g => if g.name == f.name then f else g)
  else files ++ [f]

/-- Create-or-update the day directory `day` (the `os.makedirs(...,
exist_ok=True)` of `get_today_folder` plus the writes `k` performed in it). -/
def upsertDay (fs : Store) (day : String) (k : List FsFile → List FsFile) :
    Store :=
  if fs.any (fun d => d.name == day) then
    fs.map (fun d => if d.name == day then ⟨day, k d.files⟩ else d)
  else fs ++ [⟨day, k []⟩]

/-- The four artifact writes of one checkpoint into the current day
directory's listing (storage.py lines 87–152): the colour-mapped heatmap
image when `np.max > 0`, always the numeric payload, the metadata JSON when
statistics were supplied, and the captioned overlay JPEG when a last
composite frame was supplied — all sharing one timestamp token. -/
def saveFilesK (today hms startTime : String) (g : Grid)
    (lastFrame stats : Bool) (files : List FsFile) : List FsFile :=
  let tok := today ++ "_" ++ hms
  let files1 :=
    if 0 < maxCell g then
      upsertFile files ⟨"heatmap_" ++ tok ++ ".png", none⟩
    else files
  let files2 :=
    upsertFile files1 ⟨"heatmap_data_" ++ tok ++ ".npz", some (g, startTime)⟩
  let files3 :=
    if stats then upsertFile files2 ⟨"heatmap_meta_" ++ tok ++ ".json", none⟩
    else files2
  if lastFrame then upsertFile files3 ⟨"overlay_" ++ tok ++ ".jpg", none⟩
  else files3

/-- `StorageService.save_heatmap_data` (storage.py lines 74–159).
`today`/`hms` are the date and time parts of `datetime.now()`'s
`"%Y%m%d_%H%M%S"` token; `writeOk` abstracts the disk: if `false`, the body
of the `try` raises, the exception is logged and re-raised (`.error ()`),
and the model performs none of the writes of that invocation.  On the empty
/ unallocated grid the function returns before the `try`, unconditionally
performing no write, no cleanup and no raise.  `lastFrame`/`stats` record
whether a last composite frame / a statistics dict were supplied. -/
def save_heatmap_data (saveDir today hms : String) (writeOk : Bool)
    (heatmap : Option Grid) (startTime : String) (lastFrame stats : Bool)
    (fs : Store) : Except Unit Store :=
  match heatmap with
  | none => .ok fs
  | some g =>
    if sumG g = 0 then .ok fs
    else if !writeOk then .error ()
    else
      .ok (cleanup_old_heatmaps saveDir today
        (upsertDay fs today (saveFilesK today hms startTime g lastFrame stats)))

/-- `StorageService.load_latest_heatmap` (storage.py lines 161–202): among
the 8-digit day directories pick the lexicographically greatest (regardless
of its contents); inside it pick the lexicographically last file whose name
starts with `"heatmap_data_"` (no `.npz` check here); return its payload.
All failure paths — no day directory, no payload file in the chosen
directory, or a corrupt/unreadable payload (a raised exception caught by the
surrounding `try`) — return `none`. -/
def load_latest_heatmap (fs : Store) : Option (Grid × String) :=
  match pickMaxBy (fun d => d.name) (fs.filter (fun d => isDayName d.name)) with
  | none => none
  | some d =>
    match pickMaxBy (fun f => f.name)
        (d.files.filter (fun f => strStarts f.name "heatmap_data_")) with
    | none => none
    | some f => f.payload

/-! ### Lemmas about the grid update -/

theorem mkNewHeat_go_h (boxes : List Box) (z : Grid) :
    (boxes.foldl
      (fun g b => drawCircle g (centerX b) (centerY b) GAUSSIAN_RADIUS 1)
      z).h = z.h := by
  induction boxes generalizing z with
  | nil => rfl
  | cons b bs ih => simpa [List.foldl_cons] using ih (drawCircle z _ _ _ 1)

theorem mkNewHeat_go_w (boxes : List Box) (z : Grid) :
    (boxes.foldl
      (fun g b => drawCircle g (centerX b) (centerY b) GAUSSIAN_RADIUS 1)
      z).w = z.w := by
  induction boxes generalizing z with
  | nil => rfl
  | cons b bs ih => simpa [List.foldl_cons] using ih (drawCircle z _ _ _ 1)

theorem coveredAny_cons (b : Box) (bs : List Box) (x y : ℕ) :
    coveredAny (b :: bs) x y =
      (inDisc (centerX b) (centerY b) GAUSSIAN_RADIUS x y || coveredAny bs x y) := by
  simp [coveredAny]

theorem mkNewHeat_go_val (boxes : List Box) (z : Grid) (y x : ℕ) :
    (boxes.foldl
      (fun g b => drawCircle g (centerX b) (centerY b) GAUSSIAN_RADIUS 1)
      z).val y x = if coveredAny boxes x y then 1 else z.val y x := by
  induction boxes generalizing z with
  | nil => simp [coveredAny]
  | cons b bs ih =>
    rw [List.foldl_cons, ih, coveredAny_cons]
    by_cases hb : inDisc (centerX b) (centerY b) GAUSSIAN_RADIUS x y
    · by_cases hbs : coveredAny bs x y <;> simp [drawCircle, hb, hbs]
    · by_cases hbs : coveredAny bs x y <;> simp [drawCircle, hb, hbs]

theorem mkNewHeat_h (h w : ℕ) (boxes : List Box) :
    (mkNewHeat h w boxes).h = h := mkNewHeat_go_h boxes (zerosGrid h w)

theorem mkNewHeat_w (h w : ℕ) (boxes : List Box) :
    (mkNewHeat h w boxes).w = w := mkNewHeat_go_w boxes (zerosGrid h w)

/-- The per-call buffer holds `1` at a pixel iff at least one box's disc
covers it — independently of how many discs do. -/
theorem mkNewHeat_val (h w : ℕ) (boxes : List Box) (y x : ℕ) :
    (mkNewHeat h w boxes).val y x = if coveredAny boxes x y then 1 else 0 := by
  simpa [zerosGrid] using mkNewHeat_go_val boxes (zerosGrid h w) y x

theorem broadcastDim_self (a : ℕ) : broadcastDim a a = some a := by
  simp [broadcastDim]


/-- When the frame's shape equals the allocated grid's shape, the update
succeeds and produces the pointwise sum of the grid and the disc buffer. -/
theorem update_grid_matching (g : Grid) (boxes : List Box) :
    update_grid (some g) g.h g.w boxes =
      some ⟨g.h, g.w, fun y x =>
        g.val (bIdx g.h y) (bIdx g.w x) +
          (mkNewHeat g.h g.w boxes).val (bIdx g.h y) (bIdx g.w x)⟩ := by
  unfold update_grid npAdd2
  rw [Option.getD_some]
  rw [mkNewHeat_h, mkNewHeat_w, broadcastDim_self, broadcastDim_self]

theorem bIdx_self_lt {n i : ℕ} (h : i < n) : bIdx n i = i := by
  unfold bIdx
  split
  · omega
  · rfl

/-- Number of boxes whose disc covers pixel `(x, y)` in one call. -/
def coverCount (boxes : List Box) (x y : ℕ) : ℕ :=
  (boxes.filter
    (fun b => inDisc (centerX b) (centerY b) GAUSSIAN_RADIUS x y)).length

theorem npAdd2_eq_shape (a b : Grid) (hh : a.h = b.h) (hw : a.w = b.w) :
    npAdd2 a b =
      some ⟨a.h, a.w, fun y x =>
        a.val (bIdx a.h y) (bIdx a.w x) + b.val (bIdx b.h y) (bIdx b.w x)⟩ := by
  unfold npAdd2
  rw [← hh, ← hw, broadcastDim_self, broadcastDim_self]

theorem update_grid_none (fh fw : ℕ) (boxes : List Box) :
    update_grid none fh fw boxes =
      some ⟨fh, fw, fun y x =>
        (zerosGrid fh fw).val (bIdx fh y) (bIdx fw x) +
          (mkNewHeat fh fw boxes).val (bIdx fh y) (bIdx fw x)⟩ := by
  unfold update_grid
  rw [Option.getD_none]
  have h1 := npAdd2_eq_shape (zerosGrid fh fw) (mkNewHeat fh fw boxes)
    (mkNewHeat_h fh fw boxes).symm (mkNewHeat_w fh fw boxes).symm
  rw [mkNewHeat_h, mkNewHeat_w] at h1
  exact h1

/-- Per-cell effect of a single `update_heatmap` call on a grid of the
frame's shape: an in-range cell gains exactly `1` if at least one disc
covers it and `0` otherwise, however many discs cover it. -/
theorem update_grid_cell (g : Grid) (boxes : List Box) (y x : ℕ) :
    ∃ g', update_grid (some g) g.h g.w boxes = some g' ∧
      g'.cell y x = g.cell y x +
        (if y < g.h ∧ x < g.w ∧ coveredAny boxes x y = true then 1 else 0) := by
  refine ⟨_, update_grid_matching g boxes, ?_⟩
  by_cases hy : y < g.h
  · by_cases hx : x < g.w
    · simp only [Grid.cell, hy, hx, and_true, true_and, if_pos (And.intro hy hx),
        bIdx_self_lt hy, bIdx_self_lt hx, mkNewHeat_val]
      by_cases hc : coveredAny boxes x y <;> simp [hc]
    · simp [Grid.cell, hx]
  · simp [Grid.cell, hy]

theorem broadcastDim_cases {a b c : ℕ} (h : broadcastDim a b = some c) :
    (a = c ∨ (a = 1 ∧ b = c)) ∧ (b = c ∨ (b = 1 ∧ a = c)) := by
  unfold broadcastDim at h
  split_ifs at h with h1 h2 h3 <;> injection h with h' <;> omega

theorem bIdx_lt_of {a c i : ℕ} (hac : a = c ∨ a = 1) (hpos : 0 < a)
    (hi : i < c) : bIdx a i < a := by
  unfold bIdx
  split <;> omega

/-- Monotonicity, nonnegativity and shape positivity of one (successful)
`update_heatmap` grid step, covering broadcast results as well. -/
theorem update_grid_mono {g g' : Grid} {fh fw : ℕ} {boxes : List Box}
    (hg : 0 < g.h ∧ 0 < g.w) (hf : 0 < fh ∧ 0 < fw)
    (hnn : ∀ y x, 0 ≤ g.cell y x)
    (h : update_grid (some g) fh fw boxes = some g') :
    (∀ y x, g.cell y x ≤ g'.cell y x) ∧ (∀ y x, 0 ≤ g'.cell y x) ∧
      0 < g'.h ∧ 0 < g'.w := by
  unfold update_grid npAdd2 at h
  rw [Option.getD_some, mkNewHeat_h, mkNewHeat_w] at h
  rcases hH : broadcastDim g.h fh with _ | rh <;> rw [hH] at h
  · exact absurd h (by simp)
  rcases hW : broadcastDim g.w fw with _ | rw0 <;> rw [hW] at h
  · exact absurd h (by simp)
  simp only [Option.some.injEq] at h
  subst h
  obtain ⟨hg1, hg2⟩ := hg
  obtain ⟨hf1, hf2⟩ := hf
  obtain ⟨hH1, hH2⟩ := broadcastDim_cases hH
  obtain ⟨hW1, hW2⟩ := broadcastDim_cases hW
  have hH1' : g.h = rh ∨ g.h = 1 := by omega
  have hW1' : g.w = rw0 ∨ g.w = 1 := by omega
  have hrh : g.h ≤ rh := by omega
  have hrw : g.w ≤ rw0 := by omega
  have hval : ∀ y x, y < rh → x < rw0 →
      (0 : ℤ) ≤ g.val (bIdx g.h y) (bIdx g.w x) := by
    intro y x hy hx
    have h1 : bIdx g.h y < g.h := bIdx_lt_of hH1' hg1 hy
    have h2 : bIdx g.w x < g.w := bIdx_lt_of hW1' hg2 hx
    have := hnn (bIdx g.h y) (bIdx g.w x)
    rwa [Grid.cell, if_pos (And.intro h1 h2)] at this
  have hind : ∀ y x, (0 : ℤ) ≤
      (mkNewHeat fh fw boxes).val (bIdx fh y) (bIdx fw x) := by
    intro y x
    rw [mkNewHeat_val]
    split <;> norm_num
  refine ⟨?_, ?_, show 0 < rh by omega, show 0 < rw0 by omega⟩
  · intro y x
    by_cases hin : y < g.h ∧ x < g.w
    · have hy' : y < rh := lt_of_lt_of_le hin.1 hrh
      have hx' : x < rw0 := lt_of_lt_of_le hin.2 hrw
      rw [Grid.cell, if_pos hin]
      show g.val y x ≤ Grid.cell ⟨rh, rw0, _⟩ y x
      rw [Grid.cell, if_pos (And.intro hy' hx')]
      simp only
      rw [bIdx_self_lt hin.1, bIdx_self_lt hin.2]
      have := hind y x
      linarith
    · rw [Grid.cell, if_neg hin]
      by_cases hin' : y < rh ∧ x < rw0
      · show (0 : ℤ) ≤ Grid.cell ⟨rh, rw0, _⟩ y x
        rw [Grid.cell, if_pos hin']
        simp only
        have := hval y x hin'.1 hin'.2
        have := hind y x
        linarith
      · show (0 : ℤ) ≤ Grid.cell ⟨rh, rw0, _⟩ y x
        rw [Grid.cell, if_neg hin']
  · intro y x
    by_cases hin' : y < rh ∧ x < rw0
    · show (0 : ℤ) ≤ Grid.cell ⟨rh, rw0, _⟩ y x
      rw [Grid.cell, if_pos hin']
      simp only
      have := hval y x hin'.1 hin'.2
      have := hind y x
      linarith
    · show (0 : ℤ) ≤ Grid.cell ⟨rh, rw0, _⟩ y x
      rw [Grid.cell, if_neg hin']

/-! ### Sequences of operations between two resets -/

/-- An operation on the processor between two resets: a frame update
(`update_heatmap`'s grid arithmetic) or an overlay rendering
(`apply_heatmap_overlay`). -/
inductive HOp where
  | update (fh fw : ℕ) (boxes : List Box)
  | overlay (frame : Grid)

/-- One operation on the rendering-level state.  A `ValueError` escaping the
grid addition is caught by the caller (`Camera.get_frame`), leaving the
processor state unchanged. -/
def run_op (st : HMState) : HOp → HMState
  | .update fh fw boxes =>
    match update_grid st.heatmap fh fw boxes with
    | some g => { st with heatmap := some g }
    | none => st
  | .overlay frame => (apply_heatmap_overlay st frame).1

/-- A sequence of operations between two resets. -/
def run_ops (ops : List HOp) (st : HMState) : HMState := ops.foldl run_op st

/-- Well-formed grid: positive dimensions (every camera frame is a non-empty
image, so every allocated grid has positive shape) and non-negative cells. -/
def goodG (g : Grid) : Prop := (0 < g.h ∧ 0 < g.w) ∧ ∀ y x, 0 ≤ g.cell y x

/-- Well-formed rendering state. -/
def goodS (st : HMState) : Prop := ∀ g, st.heatmap = some g → goodG g

/-- Well-formed operation: frames are non-empty images. -/
def goodOp : HOp → Prop
  | .update fh fw _ => 0 < fh ∧ 0 < fw
  | .overlay _ => True

/-- The accumulated value at cell `(y, x)` (0 while unallocated). -/
def cellOf (st : HMState) (y x : ℕ) : ℤ :=
  match st.heatmap with
  | none => 0
  | some g => g.cell y x

theorem apply_heatmap_overlay_heatmap (st : HMState) (frame : Grid) :
    (apply_heatmap_overlay st frame).1.heatmap = st.heatmap := by
  unfold apply_heatmap_overlay
  rcases hheat : st.heatmap with _ | g
  · exact hheat
  · by_cases hm : maxCell g = 0 <;> simp [hm, hheat]

theorem run_op_mono {st : HMState} {op : HOp} (hst : goodS st)
    (hop : goodOp op) :
    goodS (run_op st op) ∧ ∀ y x, cellOf st y x ≤ cellOf (run_op st op) y x := by
  cases op with
  | overlay frame =>
    have hh := apply_heatmap_overlay_heatmap st frame
    refine ⟨?_, ?_⟩
    · intro g hg
      apply hst g
      rw [← hh]
      exact hg
    · intro y x
      have e : run_op st (HOp.overlay frame) = (apply_heatmap_overlay st frame).1 := rfl
      rw [cellOf, cellOf, e, hh]
  | update fh fw boxes =>
    rcases hheat : st.heatmap with _ | g
    · have hrun : run_op st (HOp.update fh fw boxes) =
          { st with heatmap := some ⟨fh, fw, fun y x =>
            (zerosGrid fh fw).val (bIdx fh y) (bIdx fw x) +
              (mkNewHeat fh fw boxes).val (bIdx fh y) (bIdx fw x)⟩ } := by
        simp only [run_op, hheat, update_grid_none]
      have hcell : ∀ y x, (⟨fh, fw, fun y x =>
            (zerosGrid fh fw).val (bIdx fh y) (bIdx fw x) +
              (mkNewHeat fh fw boxes).val (bIdx fh y) (bIdx fw x)⟩ : Grid).cell y x =
          if y < fh ∧ x < fw then (if coveredAny boxes x y then (1 : ℤ) else 0)
          else 0 := by
        intro y x
        show (if y < fh ∧ x < fw then
            (zerosGrid fh fw).val (bIdx fh y) (bIdx fw x) +
              (mkNewHeat fh fw boxes).val (bIdx fh y) (bIdx fw x)
          else 0) = _
        by_cases hb : y < fh ∧ x < fw
        · rw [if_pos hb, if_pos hb, bIdx_self_lt hb.1, bIdx_self_lt hb.2,
            mkNewHeat_val]
          simp [zerosGrid]
        · rw [if_neg hb, if_neg hb]
      refine ⟨?_, ?_⟩
      · intro g2 hg2
        rw [hrun] at hg2
        have hg2' : some (⟨fh, fw, fun y x =>
            (zerosGrid fh fw).val (bIdx fh y) (bIdx fw x) +
              (mkNewHeat fh fw boxes).val (bIdx fh y) (bIdx fw x)⟩ : Grid) =
            some g2 := hg2
        cases Option.some.inj hg2'
        refine ⟨⟨hop.1, hop.2⟩, ?_⟩
        intro y x
        rw [hcell]
        by_cases hb : y < fh ∧ x < fw
        · rw [if_pos hb]
          split <;> norm_num
        · rw [if_neg hb]
      · intro y x
        have e1 : cellOf st y x = 0 := by simp only [cellOf, hheat]
        have e2 : cellOf (run_op st (HOp.update fh fw boxes)) y x =
            (⟨fh, fw, fun y x =>
              (zerosGrid fh fw).val (bIdx fh y) (bIdx fw x) +
                (mkNewHeat fh fw boxes).val (bIdx fh y) (bIdx fw x)⟩ : Grid).cell
              y x := by
          rw [hrun]
          rfl
        rw [e1, e2, hcell]
        by_cases hb : y < fh ∧ x < fw
        · rw [if_pos hb]
          split <;> norm_num
        · rw [if_neg hb]
    · rcases hup : update_grid (some g) fh fw boxes with _ | g'
      · have hrun : run_op st (HOp.update fh fw boxes) = st := by
          simp only [run_op, hheat, hup]
        rw [hrun]
        exact ⟨hst, fun y x => le_refl _⟩
      · have hg := hst g hheat
        have hm := update_grid_mono hg.1 hop hg.2 hup
        have hrun : run_op st (HOp.update fh fw boxes) =
            { st with heatmap := some g' } := by
          simp only [run_op, hheat, hup]
        refine ⟨?_, ?_⟩
        · intro g2 hg2
          rw [hrun] at hg2
          have hg2' : some g' = some g2 := hg2
          cases Option.some.inj hg2'
          exact ⟨⟨hm.2.2.1, hm.2.2.2⟩, hm.2.1⟩
        · intro y x
          have e1 : cellOf st y x = g.cell y x := by simp only [cellOf, hheat]
          have e2 : cellOf (run_op st (HOp.update fh fw boxes)) y x =
              g'.cell y x := by
            rw [hrun]
            rfl
          rw [e1, e2]
          exact hm.1 y x

/-! ### Claims about the update rule -/

/-- The two-identical-boxes call of the spec's scenario: both discs are
centred at `(15, 15)`. -/
def cxBoxes : List Box := [(10, 10, 20, 20), (10, 10, 20, 20)]

/-- **C1 — counterexample.**  In a single `update_heatmap` call with two
boxes whose discs both cover cell `(15, 15)` (`coverCount = 2`), the cell
increases by `1`, not by `2`: `cv2.circle` *sets* the per-call buffer's
pixels to `1`, so overlapping discs of one call do not stack. -/
theorem update_single_call_overlap_cx :
    ∃ g', update_grid (some (zerosGrid 100 100)) 100 100 cxBoxes = some g' ∧
      g'.cell 15 15 = 1 ∧ coverCount cxBoxes 15 15 = 2 ∧
      g'.cell 15 15 ≠ (coverCount cxBoxes 15 15 : ℤ) := by
  obtain ⟨g', hg', hcell⟩ := update_grid_cell (zerosGrid 100 100) cxBoxes 15 15
  have hz : (zerosGrid 100 100).cell 15 15 = 0 := by simp [Grid.cell, zerosGrid]
  have hval : g'.cell 15 15 = 1 := by
    rw [hcell, hz, if_pos]
    · norm_num
    · exact ⟨by decide, by decide, by decide⟩
  refine ⟨g', hg', hval, by decide, ?_⟩
  rw [hval, show coverCount cxBoxes 15 15 = 2 from by decide]
  norm_num

/-- **C1 — amended.**  For a single `update_heatmap` call on a grid of the
frame's shape, every in-range cell covered by *at least one* of the boxes'
discs increases by exactly `1` — independently of how many discs cover it —
and every other cell is unchanged (additive stacking happens only across
separate calls). -/
theorem update_single_call_overlap_amended (g : Grid) (boxes : List Box)
    (y x : ℕ) :
    ∃ g', update_grid (some g) g.h g.w boxes = some g' ∧
      g'.cell y x = g.cell y x +
        (if y < g.h ∧ x < g.w ∧ coveredAny boxes x y = true then 1 else 0) :=
  update_grid_cell g boxes y x

/-- **C10.**  `update_heatmap` with a frame of the grid's own shape is total
over all integer box coordinates: whatever the boxes (centres on or far
outside the boundary included), no exception occurs, the shape is preserved,
and every cell is monotone — the discs are silently clipped to the grid. -/
theorem update_total_out_of_bounds (g : Grid) (boxes : List Box) :
    ∃ g', update_grid (some g) g.h g.w boxes = some g' ∧
      g'.h = g.h ∧ g'.w = g.w ∧ ∀ y x, g.cell y x ≤ g'.cell y x := by
  refine ⟨_, update_grid_matching g boxes, rfl, rfl, ?_⟩
  intro y x
  obtain ⟨g2, hg2, hc⟩ := update_grid_cell g boxes y x
  rw [update_grid_matching g boxes] at hg2
  cases Option.some.inj hg2
  rw [hc]
  have h0 : (0 : ℤ) ≤
      if y < g.h ∧ x < g.w ∧ coveredAny boxes x y = true then 1 else 0 := by
    split <;> norm_num
  linarith

/-- **C6.**  Between two resets, running any sequence of well-formed
updates and overlay renderings never decreases any accumulated cell, and
`apply_heatmap_overlay` never changes the accumulated grid. -/
theorem grid_monotone_and_render_pure (ops : List HOp) (st : HMState)
    (hst : goodS st) (hops : ∀ op ∈ ops, goodOp op) :
    (∀ y x, cellOf st y x ≤ cellOf (run_ops ops st) y x) ∧
      ∀ st2 frame, (apply_heatmap_overlay st2 frame).1.heatmap = st2.heatmap := by
  refine ⟨?_, fun st2 frame => apply_heatmap_overlay_heatmap st2 frame⟩
  induction ops generalizing st with
  | nil => intro y x; exact le_refl _
  | cons op rest ih =>
    intro y x
    have h1 := run_op_mono hst (hops op (List.mem_cons_self op rest))
    have h2 := ih (run_op st op) h1.1
      (fun o ho => hops o (List.mem_cons_of_mem op ho))
    calc cellOf st y x ≤ cellOf (run_op st op) y x := h1.2 y x
      _ ≤ cellOf (run_ops rest (run_op st op)) y x := h2 y x
      _ = cellOf (run_ops (op :: rest) st) y x := rfl

/-- Witness for C6 at a concrete state and operation sequence. -/
theorem grid_monotone_and_render_pure_witness :
    (∀ y x, cellOf ⟨none, none⟩ y x ≤
        cellOf (run_ops [HOp.update 2 2 [(0, 0, 2, 2)],
          HOp.overlay (zerosGrid 2 2)] ⟨none, none⟩) y x) ∧
      ∀ st2 frame, (apply_heatmap_overlay st2 frame).1.heatmap = st2.heatmap :=
  grid_monotone_and_render_pure _ _ (fun _ hg => Option.noConfusion hg)
    (by
      intro op hop
      fin_cases hop
      · exact ⟨by norm_num, by norm_num⟩
      · trivial)

/-! ### Claims about the autosave control flow -/

/-- A processor state whose autosave is overdue: a 1×1 grid with positive
sum, last checkpoint at time 0. -/
def dueHP : HP := ⟨some ⟨1, 1, fun _ _ => 1⟩, 0⟩

/-- **C8.**  The code at the failing input: `update_heatmap` with a frame
whose shape differs from the allocated grid's does *not* raise when numpy
can broadcast the shapes — a 2×2 grid accepts a 1×2 frame silently, and a
1×1 grid silently *grows* to 2×2 under a 2×2 frame, changing the allocated
shape. -/
theorem shape_mismatch_no_raise_cx :
    (update_grid (some ⟨2, 2, fun _ _ => 1⟩) 1 2 []).isSome = true ∧
    ∃ g', update_grid (some ⟨1, 1, fun _ _ => 1⟩) 2 2 [] = some g' ∧
      g'.h = 2 ∧ g'.w = 2 := by
  exact ⟨rfl, ⟨_, rfl, rfl, rfl⟩⟩

/-- **C4 — counterexample.**  A frame with no detections never reaches
`_auto_save_check`, even when the autosave interval has long elapsed:
`Camera.get_frame` calls `update_heatmap` (the only caller of the check)
only when `detections` is non-empty.  Here the interval is overdue
(`1000 - 0 ≥ 300`) yet no check runs, no save is attempted and the
checkpoint clock is untouched. -/
theorem frame_without_detections_skips_check_cx :
    (get_frame SAVE_INTERVAL 1000 false 1 1 [] dueHP).2.1 = false ∧
    (get_frame SAVE_INTERVAL 1000 false 1 1 [] dueHP).2.2 = false ∧
    (get_frame SAVE_INTERVAL 1000 false 1 1 [] dueHP).1.lastSaveTime = 0 ∧
    SAVE_INTERVAL ≤ 1000 - dueHP.lastSaveTime := by
  exact ⟨rfl, rfl, rfl, by decide⟩

/-- **C4 — amended.**  The elapsed-time autosave check runs on a processed
frame iff the frame has at least one detection and the grid addition does
not raise; on detection-free frames the check is skipped entirely. -/
theorem autosave_check_iff_detections (interval now : ℕ) (sr : Bool)
    (fh fw : ℕ) (dets : List Box) (st : HP) :
    (get_frame interval now sr fh fw dets st).2.1 =
      (!dets.isEmpty && (update_grid st.heatmap fh fw dets).isSome) := by
  cases hd : dets.isEmpty with
  | false =>
    rcases h : update_grid st.heatmap fh fw dets with _ | g <;>
      simp [get_frame, update_heatmap, hd, h]
  | true => simp [get_frame, hd]

/-- The two frames of the C3 counterexample, 1 second apart, both overdue. -/
def cxFrames : List (ℕ × List Box) := [(300, [(0, 0, 0, 0)]), (301, [(0, 0, 0, 0)])]

/-- **C3 — counterexample.**  With persistently failing disk writes
(`storageRaises = true`), two frames only one second apart each trigger a
storage save attempt (2 attempts within far less than one 300 s interval),
and after a failing attempt the last-checkpoint clock still reads its old
value `0`, not the attempt time: the exception raised by
`save_heatmap_data` propagates before `last_save_time` is assigned. -/
theorem autosave_gate_busy_retry_cx :
    (run_frames SAVE_INTERVAL true 1 1 cxFrames dueHP).2 = 2 ∧
    (run_frames SAVE_INTERVAL true 1 1 [(300, [(0, 0, 0, 0)])]
      dueHP).1.lastSaveTime = 0 ∧
    301 - 300 < SAVE_INTERVAL := by
  exact ⟨by decide, by decide, by decide⟩

/-- **C3 — amended.**  When the autosave interval has elapsed and the grid
prompts a storage call, the last-checkpoint clock is reset to the current
time iff the save does not raise; if the storage write raises, the clock
keeps its old value (so under persistently failing disk writes every
subsequent update frame retries, rather than one attempt per interval). -/
theorem clock_reset_iff_no_raise (interval now : ℕ) (st : HP)
    (hdue : interval ≤ now - st.lastSaveTime)
    (hatt : save_would_call_storage st = true) :
    auto_save_check interval now true st = (st, true, true) ∧
    auto_save_check interval now false st =
      ({ st with lastSaveTime := now }, true, false) := by
  unfold auto_save_check
  constructor <;> simp [hdue, hatt]

/-- Witness for C3's amended statement at a concrete overdue state. -/
theorem clock_reset_iff_no_raise_witness :
    auto_save_check SAVE_INTERVAL 400 true dueHP = (dueHP, true, true) ∧
    auto_save_check SAVE_INTERVAL 400 false dueHP =
      ({ dueHP with lastSaveTime := 400 }, true, false) :=
  clock_reset_iff_no_raise SAVE_INTERVAL 400 dueHP (by decide) (by decide)

/-! ### Claims about the snapshot store -/

/-- **C9.**  `save_heatmap_data` on an unallocated surface or one whose
total sum is zero returns before the `try` block: the store is unchanged
(no file writes, no retention pass) and no exception can be raised — even
when the disk would fail every write. -/
theorem save_empty_noop (saveDir today hms : String) (writeOk : Bool)
    (heatmap : Option Grid) (startTime : String) (lastFrame stats : Bool)
    (fs : Store)
    (hempty : heatmap = none ∨ ∃ g, heatmap = some g ∧ sumG g = 0) :
    save_heatmap_data saveDir today hms writeOk heatmap startTime lastFrame
      stats fs = .ok fs := by
  rcases hempty with h | ⟨g, hg, hsum⟩
  · rw [h]
    rfl
  · rw [hg]
    simp only [save_heatmap_data]
    rw [if_pos hsum]

/-- Witness for C9: an allocated all-zero 1×1 grid, with a failing disk. -/
theorem save_empty_noop_witness :
    save_heatmap_data "saved_heatmaps" "20260101" "120000" false
      (some (zerosGrid 1 1)) "2026-01-01T00:00:00" false false [] = .ok [] :=
  save_empty_noop _ _ _ _ _ _ _ _ _ (Or.inr ⟨zerosGrid 1 1, rfl, by decide⟩)

/-- A closed (non-current) day bucket `20261012` holding the numeric
payloads of two checkpoints: `20261012_100000` and `20261012_202610`
(a save at 10:00:00 and one at 20:26:10). -/
def c2Store : Store :=
  [⟨"20261012",
    [⟨"heatmap_data_20261012_100000.npz", none⟩,
     ⟨"heatmap_data_20261012_202610.npz", none⟩]⟩]

/-- **C2.**  The code at the failing input: the retention pass is asked to
collapse the closed bucket `20261012` while the current bucket is
`20270101`.  The lexicographically-last payload is the 20:26:10 checkpoint,
but the code extracts only `'202610'` (`split('_')[-1]` drops the date
part) and keeps any file whose *full path* contains it — and the day-folder
component `20261012` of every path contains `202610`.  Result: nothing is
deleted; the 10:00:00 checkpoint's payload survives, contradicting
"keep only the lexicographically-last token's artifacts". -/
theorem cleanup_retains_stale_artifact_cx :
    cleanup_old_heatmaps "saved_heatmaps" "20270101" c2Store = c2Store ∧
    "20261012" ≠ "20270101" := by
  exact ⟨rfl, by decide⟩

/-! ### Lemmas about lexicographic selection and the store -/

theorem listLt_irrefl (l : List Char) : ¬l < l := lt_irrefl l

theorem listLt_asymm {a b : List Char} (h : a < b) : ¬b < a := asymm h

theorem strLtb_irrefl (a : String) : strLtb a a = false := by
  simp only [strLtb, decide_eq_false_iff_not]
  exact listLt_irrefl a.data

theorem strLtb_asymm {a b : String} (h : strLtb a b = true) :
    strLtb b a = false := by
  simp only [strLtb, decide_eq_true_eq] at h
  simp only [strLtb, decide_eq_false_iff_not]
  exact listLt_asymm h

theorem pickMaxBy_go {α : Type} (name : α → String) (d : α) :
    ∀ (l : List α) (acc : Option α),
      (∀ e ∈ l, e = d ∨ strLtb (name e) (name d) = true) →
      (acc = some d ∨
        (d ∈ l ∧ (acc = none ∨
          ∃ a, acc = some a ∧ strLtb (name a) (name d) = true))) →
      l.foldl
        (fun acc x =>
          match acc with
          | none => some x
          | some a => if strLtb (name a) (name x) then some x else some a)
        acc = some d := by
  intro l
  induction l with
  | nil =>
    intro acc hdom hacc
    rcases hacc with h | ⟨hd, _⟩
    · simpa using h
    · cases hd
  | cons x xs ih =>
    intro acc hdom hacc
    rw [List.foldl_cons]
    have hdx := hdom x (List.mem_cons_self x xs)
    have hdom' : ∀ e ∈ xs, e = d ∨ strLtb (name e) (name d) = true :=
      fun e he => hdom e (List.mem_cons_of_mem x he)
    have hdxs : strLtb (name x) (name d) = true → d ∈ x :: xs → d ∈ xs := by
      intro hx hd
      rcases List.mem_cons.mp hd with rfl | hd'
      · rw [strLtb_irrefl] at hx
        exact absurd hx (by simp)
      · exact hd'
    apply ih
    · exact hdom'
    rcases hacc with rfl | ⟨hd, hacc⟩
    · rcases hdx with rfl | hx
      · left
        simp [strLtb_irrefl]
      · left
        simp [strLtb_asymm hx]
    · rcases hacc with rfl | ⟨a, rfl, ha⟩
      · rcases hdx with rfl | hx
        · left
          rfl
        · exact Or.inr ⟨hdxs hx hd, Or.inr ⟨x, rfl, hx⟩⟩
      · rcases hdx with rfl | hx
        · left
          simp [ha]
        · by_cases hax : strLtb (name a) (name x) = true
          · exact Or.inr ⟨hdxs hx hd, Or.inr ⟨x, by simp [hax], hx⟩⟩
          · refine Or.inr ⟨hdxs hx hd, Or.inr ⟨a, ?_, ha⟩⟩
            simp [hax]

/-- `sort(reverse=True)[0]` / `sorted(...)[-1]`: when `d` is a member that
strictly dominates every other member by name, the scan returns `d`. -/
theorem pickMaxBy_eq {α : Type} (name : α → String) (l : List α) (d : α)
    (hmem : d ∈ l)
    (hdom : ∀ e ∈ l, e = d ∨ strLtb (name e) (name d) = true) :
    pickMaxBy name l = some d :=
  pickMaxBy_go name d l none hdom (Or.inr ⟨hmem, Or.inl rfl⟩)

theorem upsertFile_self (files : List FsFile) (f : FsFile) :
    f ∈ upsertFile files f := by
  unfold upsertFile
  by_cases h : files.any (fun g => g.name == f.name) = true
  · rw [if_pos h]
    rcases List.any_eq_true.mp h with ⟨g, hg, hname⟩
    refine List.mem_map.mpr ⟨g, hg, ?_⟩
    rw [if_pos hname]
  · rw [if_neg h]
    exact List.mem_append_right _ (List.mem_singleton.mpr rfl)

theorem mem_upsertFile {files : List FsFile} {f e : FsFile}
    (he : e ∈ upsertFile files f) : e = f ∨ e ∈ files := by
  unfold upsertFile at he
  by_cases h : files.any (fun g => g.name == f.name) = true
  · rw [if_pos h] at he
    rcases List.mem_map.mp he with ⟨g, hg, hge⟩
    by_cases hname : (g.name == f.name) = true
    · rw [if_pos hname] at hge
      exact Or.inl hge.symm
    · rw [if_neg hname] at hge
      exact Or.inr (hge ▸ hg)
  · rw [if_neg h] at he
    rcases List.mem_append.mp he with he | he
    · exact Or.inr he
    · exact Or.inl (List.mem_singleton.mp he)

theorem upsertFile_keep {files : List FsFile} {f e : FsFile} (he : e ∈ files)
    (hne : e.name ≠ f.name) : e ∈ upsertFile files f := by
  unfold upsertFile
  by_cases h : files.any (fun g => g.name == f.name) = true
  · rw [if_pos h]
    refine List.mem_map.mpr ⟨e, he, ?_⟩
    rw [if_neg (by simpa using hne)]
  · rw [if_neg h]
    exact List.mem_append_left _ he

theorem strData_append (a b : String) : (a ++ b).data = a.data ++ b.data := by
  cases a
  cases b
  rfl

theorem isPre_append_self (p m : List Char) : isPre p (p ++ m) = true := by
  induction p with
  | nil => rfl
  | cons c cs ih => simp [isPre, ih]

/-- A written filename starts with its own kind tag. -/
theorem strStarts_append_self (p s : String) : strStarts (p ++ s) p = true := by
  rw [strStarts, strData_append]
  exact isPre_append_self p.data s.data

theorem meta_not_data (s : String) :
    strStarts ("heatmap_meta_" ++ s) "heatmap_data_" = false := by
  rw [strStarts, strData_append]
  have h1 : ("heatmap_data_" : String).data =
      ['h', 'e', 'a', 't', 'm', 'a', 'p', '_', 'd', 'a', 't', 'a', '_'] := rfl
  have h2 : ("heatmap_meta_" : String).data =
      ['h', 'e', 'a', 't', 'm', 'a', 'p', '_', 'm', 'e', 't', 'a', '_'] := rfl
  rw [h1, h2]
  simp [isPre]

theorem overlay_not_data (s : String) :
    strStarts ("overlay_" ++ s) "heatmap_data_" = false := by
  rw [strStarts, strData_append]
  have h1 : ("heatmap_data_" : String).data =
      ['h', 'e', 'a', 't', 'm', 'a', 'p', '_', 'd', 'a', 't', 'a', '_'] := rfl
  have h2 : ("overlay_" : String).data =
      ['o', 'v', 'e', 'r', 'l', 'a', 'y', '_'] := rfl
  rw [h1, h2]
  simp [isPre]

theorem png_not_data (today s : String) (hday : isDayName today = true) :
    strStarts ("heatmap_" ++ today ++ s) "heatmap_data_" = false := by
  have hassoc : ("heatmap_" ++ today ++ s) = "heatmap_" ++ (today ++ s) := by
    cases today
    cases s
    rfl
  rw [hassoc, strStarts, strData_append, strData_append]
  have h1 : ("heatmap_data_" : String).data =
      ['h', 'e', 'a', 't', 'm', 'a', 'p', '_', 'd', 'a', 't', 'a', '_'] := rfl
  have h2 : ("heatmap_" : String).data =
      ['h', 'e', 'a', 't', 'm', 'a', 'p', '_'] := rfl
  rw [h1, h2]
  rcases hc : today.data with _ | ⟨c, cs⟩
  · simp only [isDayName, hc, Bool.and_eq_true, beq_iff_eq] at hday
    simp at hday
  · have hdig : c.isDigit = true := by
      simp only [isDayName, Bool.and_eq_true, List.all_eq_true] at hday
      exact hday.2 c (hc ▸ List.mem_cons_self c cs)
    have hcd : ('d' == c) = false := by
      by_cases h : c = 'd'
      · rw [h] at hdig
        exact absurd hdig (by decide)
      · simpa using fun he => h he.symm
    simp [isPre, hcd]

theorem ne_of_starts_of_not {a b : String}
    (ha : strStarts a "heatmap_data_" = true)
    (hb : strStarts b "heatmap_data_" = false) : a ≠ b := by
  intro h
  rw [h, hb] at ha
  exact absurd ha (by simp)

/-- Members of lists with pairwise distinct names are determined by name. -/
theorem pairwise_name_unique {l : List DayDir}
    (hp : l.Pairwise (fun a b => a.name ≠ b.name)) :
    ∀ a ∈ l, ∀ b ∈ l, a.name = b.name → a = b := by
  induction l with
  | nil => intro a ha; cases ha
  | cons x xs ih =>
    intro a ha b hb hab
    rcases List.pairwise_cons.mp hp with ⟨hx, hxs⟩
    rcases List.mem_cons.mp ha with rfl | ha' <;>
      rcases List.mem_cons.mp hb with rfl | hb'
    · rfl
    · exact absurd hab (hx b hb')
    · exact absurd hab.symm (hx a ha')
    · exact ih hxs a ha' b hb' hab

/-- A 1×1 grid holding a single unit of activity. -/
def oneGrid : Grid := ⟨1, 1, fun _ _ => 1⟩

/-- A store whose *older* bucket `20260101` holds a readable numeric
payload while the *newest* bucket `20260102` holds none (its directory
exists — e.g. created by `get_today_folder` before a failed write). -/
def c5Store : Store :=
  [⟨"20260101",
    [⟨"heatmap_data_20260101_120000.npz",
      some (oneGrid, "2026-01-01T00:00:00")⟩]⟩,
   ⟨"20260102", []⟩]

/-- **C5 — counterexample.**  `load_latest_heatmap` inspects only the
lexicographically newest day bucket: on `c5Store` it returns `none`
("none available") although an older bucket contains a perfectly good
numeric payload — the claim's "the most recent day bucket that is
non-empty of numeric payloads" is not what the code scans. -/
theorem load_latest_skips_older_bucket_cx :
    load_latest_heatmap c5Store = none ∧
    (c5Store.any (fun d => d.files.any (fun f =>
      strStarts f.name "heatmap_data_" && f.payload.isSome))) = true := by
  exact ⟨rfl, rfl⟩

/-- **C5 — amended.**  `load_latest_heatmap` picks the lexicographically
greatest 8-digit day bucket regardless of its contents.  If that bucket has
no `heatmap_data_` file it returns `none` (even when older buckets have
payloads); otherwise it returns the payload of that bucket's
lexicographically last `heatmap_data_` file — `none` again (only logged,
no exception) when that payload is corrupt/unreadable. -/
theorem load_latest_newest_bucket_only (fs : Store) (d : DayDir)
    (hmem : d ∈ fs) (hday : isDayName d.name = true)
    (hdom : ∀ e ∈ fs, isDayName e.name = true →
      e = d ∨ strLtb e.name d.name = true) :
    ((d.files.filter (fun f => strStarts f.name "heatmap_data_")) = [] →
      load_latest_heatmap fs = none) ∧
    (∀ f ∈ d.files, strStarts f.name "heatmap_data_" = true →
      (∀ e ∈ d.files, strStarts e.name "heatmap_data_" = true →
        e = f ∨ strLtb e.name f.name = true) →
      load_latest_heatmap fs = f.payload) := by
  have hpick : pickMaxBy (fun e => e.name)
      (fs.filter (fun e => isDayName e.name)) = some d := by
    apply pickMaxBy_eq
    · exact List.mem_filter.mpr ⟨hmem, hday⟩
    · intro e he
      rcases List.mem_filter.mp he with ⟨he1, he2⟩
      exact hdom e he1 he2
  constructor
  · intro hempty
    rw [load_latest_heatmap, hpick]
    simp only
    rw [hempty]
    rfl
  · intro f hf hfs hfdom
    rw [load_latest_heatmap, hpick]
    simp only
    have hpickf : pickMaxBy (fun e => e.name)
        (d.files.filter (fun e => strStarts e.name "heatmap_data_")) =
        some f := by
      apply pickMaxBy_eq
      · exact List.mem_filter.mpr ⟨hf, hfs⟩
      · intro e he
        rcases List.mem_filter.mp he with ⟨he1, he2⟩
        exact hfdom e he1 he2
    rw [hpickf]

/-- A store with one bucket holding two checkpoints, the later one last. -/
def c5wStore : Store :=
  [⟨"20260103",
    [⟨"heatmap_data_20260103_110000.npz", some (oneGrid, "t0")⟩,
     ⟨"heatmap_data_20260103_120000.npz", some (oneGrid, "t1")⟩]⟩]

/-- Witness for C5's amended statement on a concrete store: the
lexicographically last payload of the newest bucket is returned. -/
theorem load_latest_newest_bucket_only_witness :
    load_latest_heatmap c5wStore = some (oneGrid, "t1") := by
  have h := load_latest_newest_bucket_only c5wStore
    ⟨"20260103",
      [⟨"heatmap_data_20260103_110000.npz", some (oneGrid, "t0")⟩,
       ⟨"heatmap_data_20260103_120000.npz", some (oneGrid, "t1")⟩]⟩
    (by simp [c5wStore]) (by decide)
    (by
      intro e he _
      simp only [c5wStore, List.mem_singleton] at he
      exact Or.inl he)
  exact h.2 ⟨"heatmap_data_20260103_120000.npz", some (oneGrid, "t1")⟩
    (by simp) (by decide)
    (by
      intro e he _
      simp only [List.mem_cons] at he
      rcases he with rfl | rfl | he
      · exact Or.inr (by decide)
      · exact Or.inl rfl
      · cases he)

theorem strEq_of_data {a b : String} (h : a.data = b.data) : a = b := by
  cases a
  cases b
  cases h
  rfl

theorem strAppend_assoc (a b c : String) : a ++ b ++ c = a ++ (b ++ c) :=
  strEq_of_data (by simp [strData_append, List.append_assoc])

theorem pngName_eq (today hms : String) :
    "heatmap_" ++ (today ++ "_" ++ hms) ++ ".png" =
      "heatmap_" ++ today ++ ("_" ++ hms ++ ".png") :=
  strEq_of_data (by simp [strData_append, List.append_assoc])

theorem mem_ite_upsertFile {files : List FsFile} {f e : FsFile} {c : Prop}
    [Decidable c] (he : e ∈ if c then upsertFile files f else files) :
    e = f ∨ e ∈ files := by
  split at he
  · exact mem_upsertFile he
  · exact Or.inr he

theorem keep_ite_upsertFile {files : List FsFile} {f e : FsFile} {c : Prop}
    [Decidable c] (he : e ∈ files) (hne : e.name ≠ f.name) :
    e ∈ (if c then upsertFile files f else files) := by
  split
  · exact upsertFile_keep he hne
  · exact he

theorem cleanup_day_name (saveDir : String) (d : DayDir) :
    (cleanup_day saveDir d).name = d.name := by
  unfold cleanup_day
  split <;> rfl

/-- One checkpoint's writes into a day listing whose previous payload names
all lexicographically precede the new payload name: the new numeric payload
is present, and it strictly dominates (by name) every other
`heatmap_data_`-prefixed file of the resulting listing. -/
theorem save_files_spec (today hms start : String) (g : Grid)
    (lastFrame stats : Bool) (files : List FsFile)
    (hday : isDayName today = true)
    (hold : ∀ f ∈ files, strStarts f.name "heatmap_data_" = true →
      strLtb f.name ("heatmap_data_" ++ (today ++ "_" ++ hms) ++ ".npz") = true) :
    (⟨"heatmap_data_" ++ (today ++ "_" ++ hms) ++ ".npz", some (g, start)⟩ :
        FsFile) ∈ saveFilesK today hms start g lastFrame stats files ∧
    ∀ e ∈ saveFilesK today hms start g lastFrame stats files,
      strStarts e.name "heatmap_data_" = true →
      e = ⟨"heatmap_data_" ++ (today ++ "_" ++ hms) ++ ".npz", some (g, start)⟩ ∨
        strLtb e.name ("heatmap_data_" ++ (today ++ "_" ++ hms) ++ ".npz") =
          true := by
  have hsn : strStarts ("heatmap_data_" ++ (today ++ "_" ++ hms) ++ ".npz")
      "heatmap_data_" = true := by
    rw [strAppend_assoc]
    exact strStarts_append_self _ _
  have hmn : strStarts ("heatmap_meta_" ++ (today ++ "_" ++ hms) ++ ".json")
      "heatmap_data_" = false := by
    rw [strAppend_assoc]
    exact meta_not_data _
  have hon : strStarts ("overlay_" ++ (today ++ "_" ++ hms) ++ ".jpg")
      "heatmap_data_" = false := by
    rw [strAppend_assoc]
    exact overlay_not_data _
  have hpn : strStarts ("heatmap_" ++ (today ++ "_" ++ hms) ++ ".png")
      "heatmap_data_" = false := by
    rw [pngName_eq]
    exact png_not_data today _ hday
  constructor
  · show _ ∈ (if lastFrame = true then _ else _)
    apply keep_ite_upsertFile
    · show _ ∈ (if stats = true then _ else _)
      apply keep_ite_upsertFile
      · exact upsertFile_self _ _
      · exact ne_of_starts_of_not hsn hmn
    · exact ne_of_starts_of_not hsn hon
  · intro e he hes
    rcases mem_ite_upsertFile he with rfl | he
    · rw [hes] at hon
      exact absurd hon (by simp)
    rcases mem_ite_upsertFile he with rfl | he
    · rw [hes] at hmn
      exact absurd hmn (by simp)
    rcases mem_upsertFile he with rfl | he
    · exact Or.inl rfl
    rcases mem_ite_upsertFile he with rfl | he
    · rw [hes] at hpn
      exact absurd hpn (by simp)
    · exact Or.inr (hold e he hes)

theorem cleanup_map_name (saveDir today : String) (d : DayDir) :
    ((fun e => if isDayName e.name && !(e.name == today) then
      cleanup_day saveDir e else e) d).name = d.name := by
  simp only
  split
  · exact cleanup_day_name saveDir d
  · rfl

theorem load_latest_eq_of_picks (fs : Store) (d : DayDir) (f : FsFile)
    (h1 : pickMaxBy (fun e => e.name)
      (fs.filter (fun e => isDayName e.name)) = some d)
    (h2 : pickMaxBy (fun e => e.name)
      (d.files.filter (fun e => strStarts e.name "heatmap_data_")) = some f) :
    load_latest_heatmap fs = f.payload := by
  rw [load_latest_heatmap, h1]
  simp only
  rw [h2]

/-- Writing the current checkpoint into the day bucket `today` (which
dominates every other day bucket) and then running the retention pass
leaves `loadLatest` returning exactly the payload that strictly dominates
the bucket's payload names — the cleanup never touches the `today` bucket
and never renames any directory. -/
theorem upsert_cleanup_load (saveDir today : String) (fs : Store)
    (K : List FsFile → List FsFile) (res : Grid × String)
    (hday : isDayName today = true)
    (hnodup : fs.Pairwise (fun a b => a.name ≠ b.name))
    (hle : ∀ d ∈ fs, isDayName d.name = true →
      d.name = today ∨ strLtb d.name today = true)
    (hK : ∀ F, (F = [] ∨ ∃ d ∈ fs, d.name = today ∧ F = d.files) →
      ∃ f, f ∈ K F ∧ strStarts f.name "heatmap_data_" = true ∧
        f.payload = some res ∧
        (∀ e ∈ K F, strStarts e.name "heatmap_data_" = true →
          e = f ∨ strLtb e.name f.name = true)) :
    load_latest_heatmap
      (cleanup_old_heatmaps saveDir today (upsertDay fs today K)) =
      some res := by
  by_cases hex : fs.any (fun d => d.name == today) = true
  · obtain ⟨d0, hd0mem, hd0beq⟩ := List.any_eq_true.mp hex
    have hd0 : d0.name = today := by simpa using hd0beq
    obtain ⟨f, hfmem, hfstarts, hfpay, hfdom⟩ :=
      hK d0.files (Or.inr ⟨d0, hd0mem, hd0, rfl⟩)
    have hfs3 : cleanup_old_heatmaps saveDir today (upsertDay fs today K) =
        fs.map (fun d =>
          (fun e => if isDayName e.name && !(e.name == today) then
            cleanup_day saveDir e else e)
          ((fun e => if e.name == today then ⟨today, K e.files⟩ else e) d)) := by
      unfold cleanup_old_heatmaps upsertDay
      rw [if_pos hex, List.map_map]
      rfl
    have hcTD : ∀ F, ((fun e => if isDayName e.name && !(e.name == today) then
        cleanup_day saveDir e else e) (⟨today, K F⟩ : DayDir)) = ⟨today, K F⟩ := by
      intro F
      simp
    have huTD : ((fun e => if e.name == today then ⟨today, K e.files⟩ else e) d0) =
        (⟨today, K d0.files⟩ : DayDir) := by
      simp [hd0]
    have hmemTD : (⟨today, K d0.files⟩ : DayDir) ∈
        (fs.map (fun d =>
          (fun e => if isDayName e.name && !(e.name == today) then
            cleanup_day saveDir e else e)
          ((fun e => if e.name == today then ⟨today, K e.files⟩ else e) d))) := by
      refine List.mem_map.mpr ⟨d0, hd0mem, ?_⟩
      rw [huTD, hcTD]
    have hpick1 : pickMaxBy (fun e => e.name)
        ((fs.map (fun d =>
          (fun e => if isDayName e.name && !(e.name == today) then
            cleanup_day saveDir e else e)
          ((fun e => if e.name == today then ⟨today, K e.files⟩ else e) d))).filter
          (fun e => isDayName e.name)) = some ⟨today, K d0.files⟩ := by
      apply pickMaxBy_eq
      · exact List.mem_filter.mpr ⟨hmemTD, hday⟩
      · intro e he
        rcases List.mem_filter.mp he with ⟨hemem, heday⟩
        rcases List.mem_map.mp hemem with ⟨d, hd, hde⟩
        by_cases hdn : d.name = today
        · left
          have hdd0 : d = d0 :=
            pairwise_name_unique hnodup d hd d0 hd0mem (by rw [hdn, hd0])
          rw [← hde, hdd0, huTD, hcTD]
        · have hu : ((fun e => if e.name == today then ⟨today, K e.files⟩ else e) d)
              = d := by
            simp only [beq_iff_eq]
            rw [if_neg hdn]
          have hname : e.name = d.name := by
            rw [← hde, hu]
            exact cleanup_map_name saveDir today d
          right
          have hdday : isDayName d.name = true := by
            rw [← hname]
            exact heday
          rcases hle d hd hdday with h | h
          · exact absurd h hdn
          · show strLtb e.name today = true
            rw [hname]
            exact h
    rw [hfs3]
    refine (load_latest_eq_of_picks _ ⟨today, K d0.files⟩ f hpick1 ?_).trans hfpay
    apply pickMaxBy_eq
    · exact List.mem_filter.mpr ⟨hfmem, hfstarts⟩
    · intro e he
      rcases List.mem_filter.mp he with ⟨he1, he2⟩
      exact hfdom e he1 he2
  · have hnone : ∀ d ∈ fs, d.name ≠ today := by
      intro d hd h
      exact hex (List.any_eq_true.mpr ⟨d, hd, by simpa using h⟩)
    obtain ⟨f, hfmem, hfstarts, hfpay, hfdom⟩ := hK [] (Or.inl rfl)
    have hfs3 : cleanup_old_heatmaps saveDir today (upsertDay fs today K) =
        (fs.map (fun e => if isDayName e.name && !(e.name == today) then
          cleanup_day saveDir e else e)) ++ [⟨today, K []⟩] := by
      unfold cleanup_old_heatmaps upsertDay
      rw [if_neg hex, List.map_append]
      congr 1
      simp
    rw [hfs3]
    have hpick1 : pickMaxBy (fun e : DayDir => e.name)
        (((fs.map (fun e : DayDir => if isDayName e.name && !(e.name == today)
          then cleanup_day saveDir e else e)) ++ [(⟨today, K []⟩ : DayDir)]).filter
          (fun e => isDayName e.name)) = some ⟨today, K []⟩ := by
      apply pickMaxBy_eq
      · exact List.mem_filter.mpr
          ⟨List.mem_append_right _ (List.mem_singleton.mpr rfl), hday⟩
      · intro e he
        rcases List.mem_filter.mp he with ⟨hemem, heday⟩
        rcases List.mem_append.mp hemem with hem | hem
        · rcases List.mem_map.mp hem with ⟨d, hd, hde⟩
          have hname : e.name = d.name := by
            rw [← hde]
            exact cleanup_map_name saveDir today d
          right
          have hdday : isDayName d.name = true := by
            rw [← hname]
            exact heday
          rcases hle d hd hdday with h | h
          · exact absurd h (hnone d hd)
          · show strLtb e.name today = true
            rw [hname]
            exact h
        · exact Or.inl (List.mem_singleton.mp hem)
    refine (load_latest_eq_of_picks _ ⟨today, K []⟩ f hpick1 ?_).trans hfpay
    apply pickMaxBy_eq
    · exact List.mem_filter.mpr ⟨hfmem, hfstarts⟩
    · intro e he
      rcases List.mem_filter.mp he with ⟨he1, he2⟩
      exact hfdom e he1 he2

/-- **C7.**  Round-trip: for an allocated surface with non-zero sum, a
successful `save_heatmap_data` followed by `load_latest_heatmap` (the next
startup's load) reproduces the saved grid and `start_time` exactly — under
the clock-monotonicity facts that always hold at a real save: the current
day token dominates every existing day bucket, and the current timestamp
token dominates every payload already in today's bucket. -/
theorem save_then_load_roundtrip (saveDir today hms start : String)
    (g : Grid) (lastFrame stats : Bool) (fs : Store)
    (hday : isDayName today = true)
    (hsum : sumG g ≠ 0)
    (hnodup : fs.Pairwise (fun a b => a.name ≠ b.name))
    (hle : ∀ d ∈ fs, isDayName d.name = true →
      d.name = today ∨ strLtb d.name today = true)
    (hfiles : ∀ d ∈ fs, d.name = today → ∀ f ∈ d.files,
      strStarts f.name "heatmap_data_" = true →
      strLtb f.name ("heatmap_data_" ++ (today ++ "_" ++ hms) ++ ".npz") =
        true) :
    ∃ fs', save_heatmap_data saveDir today hms true (some g) start lastFrame
        stats fs = .ok fs' ∧
      load_latest_heatmap fs' = some (g, start) := by
  have hsave : save_heatmap_data saveDir today hms true (some g) start
      lastFrame stats fs =
      .ok (cleanup_old_heatmaps saveDir today
        (upsertDay fs today (saveFilesK today hms start g lastFrame stats))) := by
    simp only [save_heatmap_data, Bool.not_true]
    rw [if_neg hsum]
    rfl
  refine ⟨_, hsave, ?_⟩
  apply upsert_cleanup_load saveDir today fs _ (g, start) hday hnodup hle
  intro F hF
  have hold : ∀ f ∈ F, strStarts f.name "heatmap_data_" = true →
      strLtb f.name ("heatmap_data_" ++ (today ++ "_" ++ hms) ++ ".npz") =
        true := by
    rcases hF with rfl | ⟨d, hd, hdn, rfl⟩
    · intro f hf
      cases hf
    · exact hfiles d hd hdn
  have hspec := save_files_spec today hms start g lastFrame stats F hday hold
  refine ⟨⟨"heatmap_data_" ++ (today ++ "_" ++ hms) ++ ".npz",
    some (g, start)⟩, hspec.1, ?_, rfl, hspec.2⟩
  rw [strAppend_assoc]
  exact strStarts_append_self _ _

/-- Witness for C7: saving a 1×1 grid of sum 1 into an empty store and
loading it back returns the grid and its start timestamp exactly. -/
theorem save_then_load_roundtrip_witness :
    ∃ fs', save_heatmap_data "saved_heatmaps" "20260101" "120000" true
        (some oneGrid) "2026-01-01T00:00:00" false false [] = .ok fs' ∧
      load_latest_heatmap fs' = some (oneGrid, "2026-01-01T00:00:00") :=
  save_then_load_roundtrip "saved_heatmaps" "20260101" "120000"
    "2026-01-01T00:00:00" oneGrid false false [] (by decide) (by decide)
    (List.Pairwise.nil)
    (by
      intro d hd
      cases hd)
    (by
      intro d hd
      cases hd)
